import Mathlib

/-!
Shallow embedding of the SSE fan-out broadcaster (`src/sse.ts`) and of the
yielding broadcast variant of the second module copy, together with proofs
of the specified registry and broadcaster properties.

Modelling conventions:
* JavaScript `Map<string, V>` becomes an insertion-ordered association list
  `List (String × V)`; `Map.set` overwrites in place or appends, `Map.get`
  returns the first binding, `Map.delete` removes the binding.  A `Set<string>`
  becomes an insertion-ordered duplicate-free `List String`.
* A client's `ReadableStreamDefaultController` (its transport sink) is external
  nondeterminism; it is resolved per client by the field `sinkFails`: every
  `enqueue` on the sink throws when `sinkFails` is true and succeeds otherwise.
  The model additionally logs, per client, the frames successfully enqueued
  (`written`) and the number of `enqueue` calls attempted (`attempts`), which
  are the observables of the sink.  `TextEncoder.encode` is injective, so
  frames are kept as `String`s: byte-identical frames are equal strings.
* `Date.now()` is passed in as an explicit `now` argument.
-/

namespace SSE

/-- A JSON value as produced by `JSON.stringify` in `sse.ts`.  JavaScript
numbers that reach the serializer in this system are integral, so `num`
carries an `Int`. -/
inductive Json where
  | null : Json
  | bool (b : Bool) : Json
  | num (n : Int) : Json
  | str (s : String) : Json
  | arr (elems : List Json) : Json
  | obj (fields : List (String × Json)) : Json

/-- Hexadecimal digit character, as used by `JSON.stringify` for the
`\u00XX` escapes of control characters. -/
def hexDigit (n : Nat) : Char :=
  if n < 10 then Char.ofNat (48 + n) else Char.ofNat (97 + (n - 10))

/-- Escaping of a single character inside a JSON string literal, following
`JSON.stringify`: quote, backslash and the named control characters get a
two-character escape, remaining control characters below 0x20 get a
`\u00XX` escape, and every other character is passed through unchanged. -/
def escapeChar (c : Char) : String :=
  if c = '"' then "\\\""
  else if c = '\\' then "\\\\"
  else if c = '\x08' then "\\b"
  else if c = '\x0c' then "\\f"
  else if c = '\n' then "\\n"
  else if c = '\r' then "\\r"
  else if c = '\t' then "\\t"
  else if c.toNat < 32 then
    "\\u00" ++ String.mk [hexDigit (c.toNat / 16), hexDigit (c.toNat % 16)]
  else String.mk [c]

/-- Escaping of a whole JSON string literal body. -/
def escapeString (s : String) : String :=
  s.data.foldl (fun acc c => acc ++ escapeChar c) ""

mutual

/-- The single-line serialization `JSON.stringify` produces for a JSON value. -/
def stringify : Json → String
  | .null => "null"
  | .bool true => "true"
  | .bool false => "false"
  | .num n => n.repr
  | .str s => "\"" ++ escapeString s ++ "\""
  | .arr elems => "[" ++ stringifyElems elems ++ "]"
  | .obj fields => "\x7b" ++ stringifyFields fields ++ "\x7d"

/-- Comma-separated serialization of JSON array elements. -/
def stringifyElems : List Json → String
  | [] => ""
  | [j] => stringify j
  | j :: rest => stringify j ++ "," ++ stringifyElems rest

/-- Comma-separated serialization of JSON object fields. -/
def stringifyFields : List (String × Json) → String
  | [] => ""
  | [(k, v)] => "\"" ++ escapeString k ++ "\":" ++ stringify v
  | (k, v) :: rest =>
      "\"" ++ escapeString k ++ "\":" ++ stringify v ++ "," ++ stringifyFields rest

end

/-- The `metadata` field of `BroadcastPayload` in `sse.ts`.  The `timestamp`
is a `Date`, which `JSON.stringify` serializes as its ISO-8601 string; the
model carries that string. -/
structure Metadata where
  entity : String
  action : String
  shopId : String
  branchId : String
  timestamp : String
  triggeredBy : Option String

/-- The `BroadcastPayload` interface of `sse.ts`; the `type` field is the
literal string `event` and is added back by `toJson`. -/
structure BroadcastPayload where
  data : List (String × Json)
  metadata : Metadata

/-- The JSON value `JSON.stringify` observes for a `Metadata` record. -/
def Metadata.toJson (m : Metadata) : Json :=
  .obj [("entity", .str m.entity), ("action", .str m.action),
        ("shopId", .str m.shopId), ("branchId", .str m.branchId),
        ("timestamp", .str m.timestamp),
        ("triggeredBy", match m.triggeredBy with
                        | some s => .str s
                        | none => .null)]

/-- The JSON value `JSON.stringify` observes for a `BroadcastPayload`. -/
def BroadcastPayload.toJson (p : BroadcastPayload) : Json :=
  .obj [("type", .str "event"), ("data", .obj p.data),
        ("metadata", p.metadata.toJson)]

/-- The `SSEClient` record of `sse.ts`.  `sinkFails` resolves the behaviour
of the external `controller` (see the module comment); `written` and
`attempts` log what happened on the sink. -/
structure SSEClient where
  id : String
  sinkFails : Bool
  rooms : List String
  connectedAt : Nat
  closed : Bool
  written : List String
  attempts : Nat
deriving Repr, DecidableEq

/-- First-binding lookup in an association list, i.e. `Map.get`. -/
def mapGet {α : Type} (m : List (String × α)) (k : String) : Option α :=
  match m with
  | [] => none
  | (k₀, v₀) :: rest => if k₀ = k then some v₀ else mapGet rest k

/-- In-place overwrite or append, i.e. `Map.set`. -/
def mapSet {α : Type} (m : List (String × α)) (k : String) (v : α) :
    List (String × α) :=
  match m with
  | [] => [(k, v)]
  | (k₀, v₀) :: rest =>
      if k₀ = k then (k₀, v) :: rest else (k₀, v₀) :: mapSet rest k v

/-- Removal of the binding of `k`, i.e. `Map.delete`. -/
def mapDelete {α : Type} (m : List (String × α)) (k : String) :
    List (String × α) :=
  match m with
  | [] => []
  | (k₀, v₀) :: rest => if k₀ = k then rest else (k₀, v₀) :: mapDelete rest k

/-- Insertion at the end unless already present, i.e. `Set.add`. -/
def setAdd (s : List String) (x : String) : List String :=
  if x ∈ s then s else s ++ [x]

/-- Removal of an element, i.e. `Set.delete`. -/
def setDelete (s : List String) (x : String) : List String :=
  s.filter (fun y => y ≠ x)

/-- The module-level mutable state of `sse.ts`: the room index `rooms`,
the client index `clients` and the id counter. -/
structure SSEState where
  rooms : List (String × List String)
  clients : List (String × SSEClient)
  clientIdCounter : Nat
deriving Repr, DecidableEq

/-- The state of the freshly loaded module: both indices empty, counter 0. -/
def initState : SSEState := { rooms := [], clients := [], clientIdCounter := 0 }

/-- The function `buildRoomName` of `sse.ts`. -/
def buildRoomName (shopId : String) (branchId : String) : String :=
  shopId ++ ":" ++ branchId

/-- The function `addClient` of `sse.ts`.  `sinkFails` stands for the passed
controller (the behaviour of the external sink), `now` for `Date.now()`. -/
def addClient (sinkFails : Bool) (now : Nat) (roomName : String)
    (st : SSEState) : SSEClient × SSEState :=
  let counter := st.clientIdCounter + 1
  let id := "client_" ++ Nat.repr counter
  let client : SSEClient :=
    { id := id, sinkFails := sinkFails, rooms := [roomName], connectedAt := now,
      closed := false, written := [], attempts := 0 }
  let clients := mapSet st.clients id client
  let rooms :=
    match mapGet st.rooms roomName with
    | none => mapSet st.rooms roomName (setAdd [] id)
    | some members => mapSet st.rooms roomName (setAdd members id)
  (client, { rooms := rooms, clients := clients, clientIdCounter := counter })

/-- The function `removeClient` of `sse.ts`: marks the client closed, removes
its id from every room it belonged to, deletes now-empty rooms, then deletes
the client from the client index. -/
def removeClient (clientId : String) (st : SSEState) : SSEState :=
  match mapGet st.clients clientId with
  | none => st
  | some client =>
      let clients := mapSet st.clients clientId { client with closed := true }
      let rooms := client.rooms.foldl
        (fun rms room =>
          match mapGet rms room with
          | none => rms
          | some roomClients =>
              let roomClients := setDelete roomClients clientId
              if roomClients.length = 0 then mapDelete rms room
              else mapSet rms room roomClients)
        st.rooms
      { rooms := rooms, clients := mapDelete clients clientId,
        clientIdCounter := st.clientIdCounter }

/-- The function `writeSSE` of `sse.ts`, acting on the client stored under
`clientId`: a closed client is not written to at all; otherwise `enqueue` is
attempted, and a throwing sink marks the client closed. -/
def writeSSE (st : SSEState) (clientId : String) (eventData : String) :
    Bool × SSEState :=
  match mapGet st.clients clientId with
  | none => (false, st)
  | some client =>
      if client.closed then (false, st)
      else if client.sinkFails then
        let client := { client with closed := true, attempts := client.attempts + 1 }
        (false, { st with clients := mapSet st.clients clientId client })
      else
        let client := { client with written := client.written ++ [eventData],
                                    attempts := client.attempts + 1 }
        (true, { st with clients := mapSet st.clients clientId client })

/-- The SSE frame `sendEvent` builds. -/
def sendEventFrame (event : String) (data : Json) : String :=
  "event: " ++ event ++ "\ndata: " ++ stringify data ++ "\n\n"

/-- The function `sendEvent` of `sse.ts`.  The `client` argument is passed by
id: a removed client has been deleted from the index after its `closed` flag
was set, so the lookup miss and the `closed` early return coincide
observationally. -/
def sendEvent (st : SSEState) (clientId : String) (event : String)
    (data : Json) : Bool × SSEState :=
  writeSSE st clientId (sendEventFrame event data)

/-- The frame `broadcast` serializes once before its fan-out loop. -/
def entityEventFrame (payload : BroadcastPayload) : String :=
  "event: entity-event\ndata: " ++ stringify payload.toJson ++ "\n\n"

/-- One iteration of the fan-out loop of `broadcast` in `sse.ts`. -/
def broadcastStep (eventBytes : String) (acc : Nat × SSEState)
    (clientId : String) : Nat × SSEState :=
  let (sentCount, st) := acc
  match mapGet st.clients clientId with
  | none => (sentCount, st)
  | some client =>
      if client.closed then (sentCount, st)
      else if client.sinkFails then
        let client := { client with closed := true, attempts := client.attempts + 1 }
        (sentCount, { st with clients := mapSet st.clients clientId client })
      else
        let client := { client with written := client.written ++ [eventBytes],
                                    attempts := client.attempts + 1 }
        (sentCount + 1, { st with clients := mapSet st.clients clientId client })

/-- The function `broadcast` of `sse.ts`: the payload is serialized once,
then the member set of the room is iterated, skipping missing or closed
clients, counting successful enqueues and marking throwing sinks closed. -/
def broadcast (st : SSEState) (roomName : String) (payload : BroadcastPayload) :
    Nat × SSEState :=
  match mapGet st.rooms roomName with
  | none => (0, st)
  | some roomClients =>
      roomClients.foldl (broadcastStep (entityEventFrame payload)) (0, st)

/-- One iteration of the fan-out loop of the `async` broadcast variant of the
second module copy: identical to `broadcastStep` except that after every
500th successful delivery it awaits a resolved zero-delay timer.  The await
suspends the loop but touches neither the registry nor any sink; the model
counts these yields in the middle component of the accumulator. -/
def broadcastYieldStep (eventBytes : String) (acc : Nat × Nat × SSEState)
    (clientId : String) : Nat × Nat × SSEState :=
  let (sentCount, yields, st) := acc
  match mapGet st.clients clientId with
  | none => (sentCount, yields, st)
  | some client =>
      if client.closed then (sentCount, yields, st)
      else if client.sinkFails then
        let client := { client with closed := true, attempts := client.attempts + 1 }
        (sentCount, yields, { st with clients := mapSet st.clients clientId client })
      else
        let sentCount := sentCount + 1
        let client := { client with written := client.written ++ [eventBytes],
                                    attempts := client.attempts + 1 }
        let st := { st with clients := mapSet st.clients clientId client }
        if sentCount % 500 = 0 then (sentCount, yields + 1, st)
        else (sentCount, yields, st)

/-- The `async` function `broadcast` of the second module copy, which yields
control every 500 deliveries (`BATCH = 500`).  Returns the delivered count,
the number of yields taken, and the final state. -/
def broadcastYield (st : SSEState) (roomName : String)
    (payload : BroadcastPayload) : Nat × Nat × SSEState :=
  match mapGet st.rooms roomName with
  | none => (0, 0, st)
  | some roomClients =>
      roomClients.foldl (broadcastYieldStep (entityEventFrame payload)) (0, 0, st)

/-- The function `closeAllClients` of `sse.ts`: every client is marked closed
and its sink closed (close failures swallowed), then both indices are cleared
and the counter reset.  No reference to a cleared client survives in the
model, so the resulting state is `initState`. -/
def closeAllClients (_st : SSEState) : SSEState := initState

/-- The function `getClientCount` of `sse.ts`. -/
def getClientCount (st : SSEState) : Nat := st.clients.length

/-- The function `getRoomClientCount` of `sse.ts`. -/
def getRoomClientCount (st : SSEState) (roomName : String) : Nat :=
  match mapGet st.rooms roomName with
  | none => 0
  | some roomClients => roomClients.length

/-- Predicate: the string contains no raw newline character, i.e. it is a
single line of the SSE frame. -/
def noNewline (s : String) : Prop := ∀ c ∈ s.data, c ≠ '\n'

/-- Field-wise relation between a client before and after a write loop: the
identity fields are unchanged and `closed` can only go from false to true. -/
def ClientShapeLe (c c' : SSEClient) : Prop :=
  c'.id = c.id ∧ c'.rooms = c.rooms ∧ c'.connectedAt = c.connectedAt ∧
  c'.sinkFails = c.sinkFails ∧ (c.closed = true → c'.closed = true)

/-- Shape relation between states across a write loop: the room index, the id
counter and the client keys are unchanged, and every client evolves by
`ClientShapeLe` (only `closed`, `written`, `attempts` may change). -/
def FanoutShape (st st' : SSEState) : Prop :=
  st'.rooms = st.rooms ∧
  st'.clientIdCounter = st.clientIdCounter ∧
  st'.clients.map Prod.fst = st.clients.map Prod.fst ∧
  ∀ id c, mapGet st.clients id = some c →
    ∃ c', mapGet st'.clients id = some c' ∧ ClientShapeLe c c'

/-- The client record after a throwing enqueue: marked closed, one more
attempted write. -/
def closeOnThrow (c : SSEClient) : SSEClient :=
  { c with closed := true, attempts := c.attempts + 1 }

/-- The client record after a successful enqueue of `e`. -/
def recordWrite (c : SSEClient) (e : String) : SSEClient :=
  { c with written := c.written ++ [e], attempts := c.attempts + 1 }

/-- Representation invariant every JavaScript `Map`/`Set` state satisfies by
construction: association-list keys are duplicate-free and every room member
list is duplicate-free. -/
def MapRep (st : SSEState) : Prop :=
  (st.clients.map Prod.fst).Nodup ∧ (st.rooms.map Prod.fst).Nodup ∧
  ∀ r ms, mapGet st.rooms r = some ms → ms.Nodup

/-- Client id allocated by the next `addClient` call. -/
def newClientId (st : SSEState) : String :=
  "client_" ++ Nat.repr (st.clientIdCounter + 1)

/-- The client record `addClient` creates. -/
def newClient (f : Bool) (now : Nat) (roomName : String) (st : SSEState) :
    SSEClient :=
  { id := newClientId st, sinkFails := f, rooms := [roomName], connectedAt := now,
    closed := false, written := [], attempts := 0 }

/-- The client record after `removeClient` marks it closed. -/
def markClosed (c : SSEClient) : SSEClient := { c with closed := true }

/-- One call into the module interface of `sse.ts`, used to characterise the
reachable registry states. -/
inductive Op where
  | add (sinkFails : Bool) (now : Nat) (roomName : String) : Op
  | remove (clientId : String) : Op
  | bcast (roomName : String) (payload : BroadcastPayload) : Op
  | send (clientId : String) (event : String) (data : Json) : Op
  | closeAll : Op

/-- Application of one interface call to the registry state. -/
def applyOp (st : SSEState) : Op → SSEState
  | .add f now r => (addClient f now r st).2
  | .remove id => removeClient id st
  | .bcast r p => (broadcast st r p).2
  | .send id ev d => (sendEvent st id ev d).2
  | .closeAll => closeAllClients st

/-- The registry state after a sequence of interface calls, starting from the
freshly loaded module. -/
def runOps (ops : List Op) : SSEState := ops.foldl applyOp initState

/-- The registry invariant maintained by every interface call: the map/set
representation invariant, no empty room, every client id was allocated by the
counter, every client belongs to exactly one room, and two-way membership
consistency between the room index and the client index. -/
def Inv (st : SSEState) : Prop :=
  MapRep st ∧
  (∀ r ms, mapGet st.rooms r = some ms → ms ≠ []) ∧
  (∀ id c, mapGet st.clients id = some c →
    ∃ j, j ≤ st.clientIdCounter ∧ id = "client_" ++ Nat.repr j) ∧
  (∀ id c, mapGet st.clients id = some c → ∃ r, c.rooms = [r]) ∧
  (∀ id r, (∃ ms, mapGet st.rooms r = some ms ∧ id ∈ ms) ↔
    (∃ c, mapGet st.clients id = some c ∧ r ∈ c.rooms))

/-- A concrete broadcast payload used by the concrete instantiations. -/
def samplePayload : BroadcastPayload :=
  { data := [("name", Json.str "espresso")],
    metadata :=
      { entity := "category", action := "created", shopId := "s1", branchId := "b1",
        timestamp := "2026-01-01T00:00:00.000Z", triggeredBy := none } }

/-- The client record created by registering the first client into room
`s1:b1` with a working sink. -/
def sampleLiveClient : SSEClient :=
  { id := "client_1", sinkFails := false, rooms := ["s1:b1"], connectedAt := 0,
    closed := false, written := [], attempts := 0 }

/-- A first client with an always-throwing sink, after one failed broadcast
delivery marked closed. -/
def sampleClosedClient : SSEClient :=
  { id := "client_1", sinkFails := true, rooms := ["r"], connectedAt := 0,
    closed := true, written := [], attempts := 1 }

/-- Client A of the concrete failure-isolation scenario. -/
def clientA : SSEClient :=
  { id := "client_1", sinkFails := false, rooms := ["r"], connectedAt := 0,
    closed := false, written := [], attempts := 0 }

/-- Client B of the concrete failure-isolation scenario: its sink throws. -/
def clientB : SSEClient := { clientA with id := "client_2", sinkFails := true }

/-- Client C of the concrete failure-isolation scenario. -/
def clientC : SSEClient := { clientA with id := "client_3" }

/-- Call sequence producing the concrete three-client room `r`. -/
def opsC1 : List Op := [Op.add false 0 "r", Op.add true 0 "r", Op.add false 0 "r"]

/-- The concrete three-client registry state. -/
def stC1 : SSEState := runOps opsC1

/-- Call sequence producing a client whose sink threw during a broadcast. -/
def opsC8 : List Op := [Op.add true 0 "r", Op.bcast "r" samplePayload]

end SSE

namespace SSE

theorem mapGet_mapSet_self {α : Type} (m : List (String × α)) (k : String) (v : α) :
    mapGet (mapSet m k v) k = some v := by
  induction m with
  | nil => simp [mapGet, mapSet]
  | cons hd tl ih =>
      obtain ⟨k₀, v₀⟩ := hd
      by_cases h : k₀ = k
      · simp [mapGet, mapSet, h]
      · simp [mapGet, mapSet, h, ih]

theorem mapGet_mapSet_ne {α : Type} (m : List (String × α)) {k k' : String} (v : α)
    (h : k ≠ k') : mapGet (mapSet m k v) k' = mapGet m k' := by
  induction m with
  | nil => simp [mapGet, mapSet, h]
  | cons hd tl ih =>
      obtain ⟨k₀, v₀⟩ := hd
      by_cases hk : k₀ = k
      · subst hk
        simp [mapGet, mapSet, h]
      · simp [mapGet, mapSet, hk, ih]

theorem mapGet_eq_none_iff {α : Type} (m : List (String × α)) (k : String) :
    mapGet m k = none ↔ k ∉ m.map Prod.fst := by
  induction m with
  | nil => simp [mapGet]
  | cons hd tl ih =>
      obtain ⟨k₀, v₀⟩ := hd
      by_cases h : k₀ = k
      · simp [mapGet, h]
      · simp [mapGet, h, ih, Ne.symm h]

theorem mapGet_isSome_iff {α : Type} (m : List (String × α)) (k : String) :
    (∃ v, mapGet m k = some v) ↔ k ∈ m.map Prod.fst := by
  rcases h : mapGet m k with _ | v
  · rw [mapGet_eq_none_iff] at h
    simp [h]
  · have : ¬mapGet m k = none := by simp [h]
    rw [mapGet_eq_none_iff] at this
    simp [not_not.mp this]

theorem keys_mapSet_of_mem {α : Type} {m : List (String × α)} {k : String} (v : α)
    (h : k ∈ m.map Prod.fst) : (mapSet m k v).map Prod.fst = m.map Prod.fst := by
  induction m with
  | nil => simp at h
  | cons hd tl ih =>
      obtain ⟨k₀, v₀⟩ := hd
      by_cases hk : k₀ = k
      · simp [mapSet, hk]
      · simp only [List.map_cons, List.mem_cons] at h
        rcases h with h | h
        · exact absurd h.symm hk
        · simp [mapSet, hk, ih h]

theorem keys_mapSet_of_not_mem {α : Type} {m : List (String × α)} {k : String} (v : α)
    (h : k ∉ m.map Prod.fst) :
    (mapSet m k v).map Prod.fst = m.map Prod.fst ++ [k] := by
  induction m with
  | nil => simp [mapSet]
  | cons hd tl ih =>
      obtain ⟨k₀, v₀⟩ := hd
      simp only [List.map_cons, List.mem_cons] at h
      push_neg at h
      simp [mapSet, Ne.symm h.1, ih h.2]

theorem nodup_keys_mapSet {α : Type} {m : List (String × α)} {k : String} (v : α)
    (h : (m.map Prod.fst).Nodup) : ((mapSet m k v).map Prod.fst).Nodup := by
  by_cases hm : k ∈ m.map Prod.fst
  · rw [keys_mapSet_of_mem v hm]
    exact h
  · rw [keys_mapSet_of_not_mem v hm]
    simp [List.nodup_append, h, hm]

theorem mapDelete_sublist {α : Type} (m : List (String × α)) (k : String) :
    (mapDelete m k).Sublist m := by
  induction m with
  | nil => simp [mapDelete]
  | cons hd tl ih =>
      obtain ⟨k₀, v₀⟩ := hd
      by_cases h : k₀ = k
      · rw [mapDelete, if_pos h]
        exact List.sublist_cons_self (k₀, v₀) tl
      · simpa [mapDelete, h] using ih.cons₂ (k₀, v₀)

theorem nodup_keys_mapDelete {α : Type} {m : List (String × α)} (k : String)
    (h : (m.map Prod.fst).Nodup) : ((mapDelete m k).map Prod.fst).Nodup :=
  ((mapDelete_sublist m k).map Prod.fst).nodup h

theorem mapGet_mapDelete_self {α : Type} {m : List (String × α)} (k : String)
    (h : (m.map Prod.fst).Nodup) : mapGet (mapDelete m k) k = none := by
  induction m with
  | nil => simp [mapDelete, mapGet]
  | cons hd tl ih =>
      obtain ⟨k₀, v₀⟩ := hd
      simp only [List.map_cons, List.nodup_cons] at h
      by_cases hk : k₀ = k
      · subst hk
        simp only [mapDelete, if_pos rfl]
        rw [mapGet_eq_none_iff]
        exact h.1
      · simp [mapDelete, mapGet, hk, ih h.2]

theorem mapGet_mapDelete_ne {α : Type} (m : List (String × α)) {k k' : String}
    (h : k ≠ k') : mapGet (mapDelete m k) k' = mapGet m k' := by
  induction m with
  | nil => simp [mapDelete]
  | cons hd tl ih =>
      obtain ⟨k₀, v₀⟩ := hd
      by_cases hk : k₀ = k
      · subst hk
        simp [mapDelete, mapGet, h]
      · simp [mapDelete, mapGet, hk, ih]

theorem mem_setAdd {s : List String} {x y : String} :
    y ∈ setAdd s x ↔ y ∈ s ∨ y = x := by
  by_cases h : x ∈ s
  · simp only [setAdd, if_pos h]
    constructor
    · exact Or.inl
    · rintro (hy | rfl)
      · exact hy
      · exact h
  · simp [setAdd, if_neg h]

theorem nodup_setAdd {s : List String} (x : String) (h : s.Nodup) :
    (setAdd s x).Nodup := by
  by_cases hx : x ∈ s
  · simpa [setAdd, hx] using h
  · simp [setAdd, hx, List.nodup_append, h]

theorem mem_setDelete {s : List String} {x y : String} :
    y ∈ setDelete s x ↔ y ∈ s ∧ y ≠ x := by
  simp [setDelete]

theorem nodup_setDelete {s : List String} (x : String) (h : s.Nodup) :
    (setDelete s x).Nodup :=
  (List.filter_sublist s).nodup h

theorem length_setAdd_of_not_mem {s : List String} {x : String} (h : x ∉ s) :
    (setAdd s x).length = s.length + 1 := by
  simp [setAdd, h]

end SSE

namespace SSE

theorem splitAtSep (sep : Char) :
    ∀ (l₁ l₂ r₁ r₂ : List Char), sep ∉ l₁ → sep ∉ l₂ →
      l₁ ++ sep :: r₁ = l₂ ++ sep :: r₂ → l₁ = l₂ ∧ r₁ = r₂ := by
  intro l₁
  induction l₁ with
  | nil =>
      intro l₂ r₁ r₂ h₁ h₂ heq
      cases l₂ with
      | nil => simpa using heq
      | cons b u =>
          simp only [List.nil_append, List.cons_append, List.cons.injEq] at heq
          exact absurd (heq.1 ▸ List.mem_cons_self b u) h₂
  | cons a t ih =>
      intro l₂ r₁ r₂ h₁ h₂ heq
      cases l₂ with
      | nil =>
          simp only [List.nil_append, List.cons_append, List.cons.injEq] at heq
          exact absurd (heq.1 ▸ List.mem_cons_self a t) h₁
      | cons b u =>
          simp only [List.cons_append, List.cons.injEq] at heq
          have h₁t : sep ∉ t := fun hm => h₁ (List.mem_cons_of_mem a hm)
          have h₂u : sep ∉ u := fun hm => h₂ (List.mem_cons_of_mem b hm)
          obtain ⟨ht, hr⟩ := ih u r₁ r₂ h₁t h₂u heq.2
          exact ⟨by rw [heq.1, ht], hr⟩

theorem data_buildRoomName (s b : String) :
    (buildRoomName s b).data = s.data ++ ':' :: b.data := by
  show (s ++ ":" ++ b).data = s.data ++ ':' :: b.data
  rw [String.data_append, String.data_append]
  simp

/-- Claim C7 counterexample: without the separator-freedom guarantee the room
key map is not injective — the pairs `("a:b", "c")` and `("a", "b:c")` are
distinct but produce the same room key. -/
theorem C7_counterexample :
    buildRoomName "a:b" "c" = buildRoomName "a" "b:c" ∧
      ¬(("a:b" : String) = "a" ∧ ("c" : String) = "b:c") := by
  constructor
  · decide
  · decide

/-- Claim C7 (amended): `buildRoomName` is deterministic — on the spec's
example it always yields `"shop-1:branch-1"` — and it is injective on pairs
whose shop identifiers do not contain the separator character `:`, the
guarantee the spec demands of the auth layer. -/
theorem C7_room_key_determinism_injective (s₁ b₁ s₂ b₂ : String)
    (h₁ : ':' ∉ s₁.data) (h₂ : ':' ∉ s₂.data) :
    buildRoomName "shop-1" "branch-1" = "shop-1:branch-1" ∧
      (buildRoomName s₁ b₁ = buildRoomName s₂ b₂ → s₁ = s₂ ∧ b₁ = b₂) := by
  refine ⟨by decide, fun heq => ?_⟩
  have hdata : (buildRoomName s₁ b₁).data = (buildRoomName s₂ b₂).data :=
    congrArg String.data heq
  rw [data_buildRoomName, data_buildRoomName] at hdata
  obtain ⟨hs, hb⟩ := splitAtSep ':' s₁.data s₂.data b₁.data b₂.data h₁ h₂ hdata
  constructor
  · cases s₁
    cases s₂
    exact congrArg String.mk hs
  · cases b₁
    cases b₂
    exact congrArg String.mk hb

/-- Witness for C7: the amended theorem applied at the spec's concrete pair. -/
theorem C7_witness :
    buildRoomName "shop-1" "branch-1" = "shop-1:branch-1" ∧
      (buildRoomName "shop-1" "branch-1" = buildRoomName "shop-1" "branch-1" →
        ("shop-1" : String) = "shop-1" ∧ ("branch-1" : String) = "branch-1") :=
  C7_room_key_determinism_injective "shop-1" "branch-1" "shop-1" "branch-1"
    (by decide) (by decide)

end SSE

namespace SSE

theorem toDigitsCore_append (b : Nat) :
    ∀ (f n : Nat) (acc : List Char),
      Nat.toDigitsCore b f n acc = Nat.toDigitsCore b f n [] ++ acc := by
  intro f
  induction f with
  | zero => intro n acc; simp [Nat.toDigitsCore]
  | succ f ih =>
      intro n acc
      simp only [Nat.toDigitsCore]
      by_cases h : n / b = 0
      · simp [h]
      · simp only [h, if_neg h]
        rw [ih (n / b) (Nat.digitChar (n % b) :: acc),
          ih (n / b) [Nat.digitChar (n % b)]]
        simp

theorem toDigitsCore_fuel (b : Nat) (hb : 2 ≤ b) :
    ∀ (n f f' : Nat), n < f → n < f' →
      Nat.toDigitsCore b f n [] = Nat.toDigitsCore b f' n [] := by
  intro n
  induction n using Nat.strong_induction_on with
  | _ n ih =>
      intro f f' hf hf'
      obtain ⟨f₁, rfl⟩ : ∃ f₁, f = f₁ + 1 := ⟨f - 1, by omega⟩
      obtain ⟨f₂, rfl⟩ : ∃ f₂, f' = f₂ + 1 := ⟨f' - 1, by omega⟩
      simp only [Nat.toDigitsCore]
      by_cases h : n / b = 0
      · simp [h]
      · simp only [h, if_neg h]
        have hn0 : 0 < n := by
          rcases Nat.eq_zero_or_pos n with rfl | hp
          · simp [Nat.zero_div] at h
          · exact hp
        have hdiv : n / b < n := Nat.div_lt_self hn0 (by omega)
        have hq₁ : n / b < f₁ := by omega
        have hq₂ : n / b < f₂ := by omega
        rw [toDigitsCore_append b f₁ (n / b), toDigitsCore_append b f₂ (n / b),
          ih (n / b) hdiv f₁ f₂ hq₁ hq₂]

theorem toDigits_of_lt {n : Nat} (h : n < 10) :
    Nat.toDigits 10 n = [Nat.digitChar n] := by
  have hdiv : n / 10 = 0 := Nat.div_eq_of_lt h
  have hmod : n % 10 = n := Nat.mod_eq_of_lt h
  simp [Nat.toDigits, Nat.toDigitsCore, hdiv, hmod]

theorem toDigits_of_ge {n : Nat} (h : 10 ≤ n) :
    Nat.toDigits 10 n = Nat.toDigits 10 (n / 10) ++ [Nat.digitChar (n % 10)] := by
  have hdiv : n / 10 ≠ 0 := by
    have h1 : 10 / 10 ≤ n / 10 := Nat.div_le_div_right h
    omega
  show Nat.toDigitsCore 10 (n + 1) n [] = _
  simp only [Nat.toDigitsCore, hdiv, if_neg hdiv]
  rw [toDigitsCore_append 10 n (n / 10)]
  have hlt : n / 10 < n := Nat.div_lt_self (by omega) (by omega)
  rw [toDigitsCore_fuel 10 (by omega) (n / 10) n (n / 10 + 1) hlt (Nat.lt_succ_self _)]
  rfl

theorem toDigits_ne_nil (n : Nat) : Nat.toDigits 10 n ≠ [] := by
  by_cases h : n < 10
  · simp [toDigits_of_lt h]
  · rw [toDigits_of_ge (show 10 ≤ n by omega)]
    simp

theorem digitChar_inj_lt : ∀ m < 10, ∀ n < 10, Nat.digitChar m = Nat.digitChar n → m = n := by
  decide

theorem toDigits_injective : ∀ m n : Nat, Nat.toDigits 10 m = Nat.toDigits 10 n → m = n := by
  intro m
  induction m using Nat.strong_induction_on with
  | _ m ih =>
      intro n heq
      by_cases hm : m < 10
      · by_cases hn : n < 10
        · rw [toDigits_of_lt hm, toDigits_of_lt hn] at heq
          exact digitChar_inj_lt m hm n hn (List.cons.inj heq).1
        · rw [toDigits_of_lt hm, toDigits_of_ge (show 10 ≤ n by omega)] at heq
          have := congrArg List.length heq
          simp at this
          exact absurd this (toDigits_ne_nil (n / 10))
      · by_cases hn : n < 10
        · rw [toDigits_of_ge (show 10 ≤ m by omega), toDigits_of_lt hn] at heq
          have := congrArg List.length heq
          simp at this
          exact absurd this (toDigits_ne_nil (m / 10))
        · rw [toDigits_of_ge (show 10 ≤ m by omega),
            toDigits_of_ge (show 10 ≤ n by omega)] at heq
          have hlen : (Nat.toDigits 10 (m / 10)).length = (Nat.toDigits 10 (n / 10)).length := by
            have := congrArg List.length heq
            simpa using this
          obtain ⟨hinit, hlast⟩ := List.append_inj heq hlen
          have hdiv : m / 10 = n / 10 :=
            ih (m / 10) (Nat.div_lt_self (by omega) (by omega)) (n / 10) hinit
          have hmod : m % 10 = n % 10 :=
            digitChar_inj_lt (m % 10) (Nat.mod_lt m (by omega)) (n % 10)
              (Nat.mod_lt n (by omega)) (List.cons.inj hlast).1
          omega

theorem natRepr_injective {m n : Nat} (h : Nat.repr m = Nat.repr n) : m = n := by
  apply toDigits_injective
  have h' : (Nat.toDigits 10 m).asString = (Nat.toDigits 10 n).asString := h
  have h'' : String.mk (Nat.toDigits 10 m) = String.mk (Nat.toDigits 10 n) := by
    simpa [List.asString] using h'
  injection h''

theorem clientId_injective {m n : Nat}
    (h : "client_" ++ Nat.repr m = "client_" ++ Nat.repr n) : m = n := by
  apply natRepr_injective
  have hdata := congrArg String.data h
  rw [String.data_append, String.data_append] at hdata
  have := List.append_cancel_left hdata
  cases hm : Nat.repr m
  cases hn : Nat.repr n
  rw [hm, hn] at this
  exact congrArg String.mk this

theorem mem_toDigits_digitChar :
    ∀ (n : Nat) (c : Char), c ∈ Nat.toDigits 10 n → ∃ d, d < 10 ∧ c = Nat.digitChar d := by
  intro n
  induction n using Nat.strong_induction_on with
  | _ n ih =>
      intro c hc
      by_cases h : n < 10
      · rw [toDigits_of_lt h] at hc
        simp only [List.mem_singleton] at hc
        exact ⟨n, h, hc⟩
      · rw [toDigits_of_ge (by omega)] at hc
        rcases List.mem_append.mp hc with hc | hc
        · exact ih (n / 10) (Nat.div_lt_self (by omega) (by omega)) c hc
        · simp only [List.mem_singleton] at hc
          exact ⟨n % 10, Nat.mod_lt n (by omega), hc⟩

end SSE

namespace SSE

theorem noNewline_append {s t : String} (hs : noNewline s) (ht : noNewline t) :
    noNewline (s ++ t) := by
  intro c hc
  rw [String.data_append] at hc
  rcases List.mem_append.mp hc with h | h
  · exact hs c h
  · exact ht c h

theorem hexDigit_ne_newline : ∀ n < 16, hexDigit n ≠ '\n' := by
  decide

theorem escapeChar_noNewline (c : Char) : noNewline (escapeChar c) := by
  unfold escapeChar
  split
  · unfold noNewline; decide
  · split
    · unfold noNewline; decide
    · split
      · unfold noNewline; decide
      · split
        · unfold noNewline; decide
        · split
          · unfold noNewline; decide
          · split
            · unfold noNewline; decide
            · split
              · unfold noNewline; decide
              · split
                · rename_i hlt
                  apply noNewline_append
                  · unfold noNewline; decide
                  · intro x hx
                    have hx' : x ∈ [hexDigit (c.toNat / 16), hexDigit (c.toNat % 16)] := hx
                    rcases List.mem_cons.mp hx' with rfl | hx''
                    · exact hexDigit_ne_newline _ (by omega)
                    · rcases List.mem_singleton.mp hx'' with rfl
                      exact hexDigit_ne_newline _ (by omega)
                · rename_i h₁ h₂ h₃ h₄ h₅ h₆ h₇ h₈
                  intro x hx
                  have hx' : x ∈ [c] := hx
                  rcases List.mem_singleton.mp hx' with rfl
                  exact h₅

theorem escapeString_noNewline (s : String) : noNewline (escapeString s) := by
  unfold escapeString
  generalize s.data = l
  have base : noNewline "" := by unfold noNewline; decide
  generalize hacc : ("" : String) = acc
  rw [hacc] at base
  clear hacc
  induction l generalizing acc with
  | nil => exact base
  | cons c rest ih =>
      exact ih _ (noNewline_append base (escapeChar_noNewline c))

theorem digitChar_ne_newline : ∀ d < 10, Nat.digitChar d ≠ '\n' := by
  decide

theorem natRepr_noNewline (n : Nat) : noNewline (Nat.repr n) := by
  intro c hc
  have hc' : c ∈ Nat.toDigits 10 n := hc
  obtain ⟨d, hd, rfl⟩ := mem_toDigits_digitChar n c hc'
  exact digitChar_ne_newline d hd

theorem intRepr_noNewline (n : Int) : noNewline n.repr := by
  cases n with
  | ofNat m => exact natRepr_noNewline m
  | negSucc m =>
      show noNewline ("-" ++ Nat.repr (m + 1))
      exact noNewline_append (by unfold noNewline; decide) (natRepr_noNewline (m + 1))

end SSE

namespace SSE

theorem noNewline3 {x y z : String} (hx : noNewline x) (hy : noNewline y)
    (hz : noNewline z) : noNewline (x ++ y ++ z) :=
  noNewline_append (noNewline_append hx hy) hz

mutual

theorem stringify_noNewline : ∀ j : Json, noNewline (stringify j)
  | .null => by unfold stringify noNewline; decide
  | .bool true => by unfold stringify noNewline; decide
  | .bool false => by unfold stringify noNewline; decide
  | .num n => by unfold stringify; exact intRepr_noNewline n
  | .str s => by
      unfold stringify
      exact noNewline3 (by unfold noNewline; decide) (escapeString_noNewline s)
        (by unfold noNewline; decide)
  | .arr elems => by
      unfold stringify
      exact noNewline3 (by unfold noNewline; decide) (stringifyElems_noNewline elems)
        (by unfold noNewline; decide)
  | .obj fields => by
      unfold stringify
      exact noNewline3 (by unfold noNewline; decide) (stringifyFields_noNewline fields)
        (by unfold noNewline; decide)

theorem stringifyElems_noNewline : ∀ l : List Json, noNewline (stringifyElems l)
  | [] => by unfold stringifyElems noNewline; decide
  | [j] => by unfold stringifyElems; exact stringify_noNewline j
  | j :: j' :: rest => by
      unfold stringifyElems
      exact noNewline3 (stringify_noNewline j) (by unfold noNewline; decide)
        (stringifyElems_noNewline (j' :: rest))

theorem stringifyFields_noNewline : ∀ l : List (String × Json), noNewline (stringifyFields l)
  | [] => by unfold stringifyFields noNewline; decide
  | [(k, v)] => by
      unfold stringifyFields
      exact noNewline_append
        (noNewline3 (by unfold noNewline; decide) (escapeString_noNewline k)
          (by unfold noNewline; decide))
        (stringify_noNewline v)
  | (k, v) :: f :: rest => by
      unfold stringifyFields
      exact noNewline_append
        (noNewline_append
          (noNewline_append
            (noNewline3 (by unfold noNewline; decide) (escapeString_noNewline k)
              (by unfold noNewline; decide))
            (stringify_noNewline v))
          (by unfold noNewline; decide))
        (stringifyFields_noNewline (f :: rest))

end

end SSE

namespace SSE

theorem clientShapeLe_refl (c : SSEClient) : ClientShapeLe c c :=
  ⟨rfl, rfl, rfl, rfl, fun h => h⟩

theorem clientShapeLe_trans {a b c : SSEClient} (h₁ : ClientShapeLe a b)
    (h₂ : ClientShapeLe b c) : ClientShapeLe a c :=
  ⟨h₂.1.trans h₁.1, h₂.2.1.trans h₁.2.1, h₂.2.2.1.trans h₁.2.2.1,
    h₂.2.2.2.1.trans h₁.2.2.2.1, fun h => h₂.2.2.2.2 (h₁.2.2.2.2 h)⟩

theorem fanoutShape_refl (st : SSEState) : FanoutShape st st :=
  ⟨rfl, rfl, rfl, fun _ c hc => ⟨c, hc, clientShapeLe_refl c⟩⟩

theorem fanoutShape_trans {s₁ s₂ s₃ : SSEState} (h₁ : FanoutShape s₁ s₂)
    (h₂ : FanoutShape s₂ s₃) : FanoutShape s₁ s₃ := by
  refine ⟨h₂.1.trans h₁.1, h₂.2.1.trans h₁.2.1, h₂.2.2.1.trans h₁.2.2.1, ?_⟩
  intro id c hc
  obtain ⟨c', hc', hle⟩ := h₁.2.2.2 id c hc
  obtain ⟨c'', hc'', hle'⟩ := h₂.2.2.2 id c' hc'
  exact ⟨c'', hc'', clientShapeLe_trans hle hle'⟩

theorem writeSSE_cases (st : SSEState) (cid : String) (e : String) :
    writeSSE st cid e = (false, st) ∨
    (∃ client, mapGet st.clients cid = some client ∧ client.closed = false ∧
      ((client.sinkFails = true ∧ writeSSE st cid e =
          (false, { st with clients := mapSet st.clients cid (closeOnThrow client) })) ∨
        (client.sinkFails = false ∧ writeSSE st cid e =
          (true, { st with clients := mapSet st.clients cid (recordWrite client e) })))) := by
  rcases h : mapGet st.clients cid with _ | client
  · left
    simp [writeSSE, h]
  · by_cases hc : client.closed = true
    · left
      simp [writeSSE, h, hc]
    · right
      refine ⟨client, rfl, by simpa using hc, ?_⟩
      by_cases hf : client.sinkFails = true
      · left
        refine ⟨hf, ?_⟩
        unfold closeOnThrow
        simp [writeSSE, h, hc, hf]
      · right
        refine ⟨by simpa using hf, ?_⟩
        unfold recordWrite
        simp [writeSSE, h, hc, hf]

theorem broadcastStep_eq_writeSSE (e : String) (n : Nat) (s : SSEState) (cid : String) :
    broadcastStep e (n, s) cid =
      (n + (if (writeSSE s cid e).1 then 1 else 0), (writeSSE s cid e).2) := by
  rcases h : mapGet s.clients cid with _ | client
  · simp [broadcastStep, writeSSE, h]
  · by_cases hc : client.closed = true
    · simp [broadcastStep, writeSSE, h, hc]
    · by_cases hf : client.sinkFails = true
      · simp [broadcastStep, writeSSE, h, hc, hf]
      · simp [broadcastStep, writeSSE, h, hc, hf]

theorem writeSSE_shape (st : SSEState) (cid : String) (e : String) :
    FanoutShape st (writeSSE st cid e).2 := by
  rcases writeSSE_cases st cid e with heq | ⟨client, h, hc, hrest⟩
  · rw [heq]
    exact fanoutShape_refl st
  · have hmem : cid ∈ st.clients.map Prod.fst := (mapGet_isSome_iff _ _).mp ⟨client, h⟩
    rcases hrest with ⟨hf, heq⟩ | ⟨hf, heq⟩
    · rw [heq]
      refine ⟨rfl, rfl, keys_mapSet_of_mem _ hmem, ?_⟩
      intro id c hcid
      by_cases hid : cid = id
      · subst hid
        have hcc : client = c := Option.some.inj (h.symm.trans hcid)
        subst hcc
        exact ⟨_, mapGet_mapSet_self _ _ _, rfl, rfl, rfl, rfl, fun _ => rfl⟩
      · exact ⟨c, by rw [mapGet_mapSet_ne _ _ hid]; exact hcid, clientShapeLe_refl c⟩
    · rw [heq]
      refine ⟨rfl, rfl, keys_mapSet_of_mem _ hmem, ?_⟩
      intro id c hcid
      by_cases hid : cid = id
      · subst hid
        have hcc : client = c := Option.some.inj (h.symm.trans hcid)
        subst hcc
        exact ⟨_, mapGet_mapSet_self _ _ _, rfl, rfl, rfl, rfl, fun hcl => hcl⟩
      · exact ⟨c, by rw [mapGet_mapSet_ne _ _ hid]; exact hcid, clientShapeLe_refl c⟩

theorem broadcastStep_shape (e : String) (n : Nat) (s : SSEState) (cid : String) :
    FanoutShape s (broadcastStep e (n, s) cid).2 := by
  rw [broadcastStep_eq_writeSSE]
  exact writeSSE_shape s cid e

theorem broadcast_foldl_shape (e : String) :
    ∀ (l : List String) (n : Nat) (s : SSEState),
      FanoutShape s (l.foldl (broadcastStep e) (n, s)).2 := by
  intro l
  induction l with
  | nil => intro n s; exact fanoutShape_refl s
  | cons a t ih =>
      intro n s
      rw [List.foldl_cons]
      rcases hstep : broadcastStep e (n, s) a with ⟨n₁, s₁⟩
      have h₁ : FanoutShape s s₁ := by
        have := broadcastStep_shape e n s a
        rw [hstep] at this
        exact this
      exact fanoutShape_trans h₁ (ih n₁ s₁)

theorem broadcast_shape (st : SSEState) (roomName : String) (p : BroadcastPayload) :
    FanoutShape st (broadcast st roomName p).2 := by
  unfold broadcast
  rcases h : mapGet st.rooms roomName with _ | members
  · simp only [h]
    exact fanoutShape_refl st
  · simp only [h]
    exact broadcast_foldl_shape _ members 0 st

theorem sendEvent_shape (st : SSEState) (cid : String) (event : String) (d : Json) :
    FanoutShape st (sendEvent st cid event d).2 :=
  writeSSE_shape st cid (sendEventFrame event d)

/-- Claim C10: broadcast and sendEvent never change registry membership: the
room index is untouched, the client index keys are unchanged, and both counts
are preserved, for every state, room, payload and client. -/
theorem C10_frame_no_membership_change (st : SSEState) (roomName : String)
    (p : BroadcastPayload) (cid : String) (event : String) (d : Json) :
    ((broadcast st roomName p).2.rooms = st.rooms ∧
      (broadcast st roomName p).2.clients.map Prod.fst = st.clients.map Prod.fst ∧
      getClientCount (broadcast st roomName p).2 = getClientCount st ∧
      ∀ K, getRoomClientCount (broadcast st roomName p).2 K = getRoomClientCount st K) ∧
    ((sendEvent st cid event d).2.rooms = st.rooms ∧
      (sendEvent st cid event d).2.clients.map Prod.fst = st.clients.map Prod.fst ∧
      getClientCount (sendEvent st cid event d).2 = getClientCount st ∧
      ∀ K, getRoomClientCount (sendEvent st cid event d).2 K = getRoomClientCount st K) := by
  have hb := broadcast_shape st roomName p
  have hs := sendEvent_shape st cid event d
  constructor
  · refine ⟨hb.1, hb.2.2.1, ?_, ?_⟩
    · show (broadcast st roomName p).2.clients.length = st.clients.length
      have := congrArg List.length hb.2.2.1
      simpa using this
    · intro K
      unfold getRoomClientCount
      rw [hb.1]
  · refine ⟨hs.1, hs.2.2.1, ?_, ?_⟩
    · show (sendEvent st cid event d).2.clients.length = st.clients.length
      have := congrArg List.length hs.2.2.1
      simpa using this
    · intro K
      unfold getRoomClientCount
      rw [hs.1]

end SSE

namespace SSE

theorem broadcastYieldStep_eq (e : String) (n y : Nat) (s : SSEState) (cid : String) :
    (broadcastYieldStep e (n, y, s) cid).1 = (broadcastStep e (n, s) cid).1 ∧
    (broadcastYieldStep e (n, y, s) cid).2.2 = (broadcastStep e (n, s) cid).2 := by
  rcases h : mapGet s.clients cid with _ | client
  · simp [broadcastYieldStep, broadcastStep, h]
  · by_cases hc : client.closed = true
    · simp [broadcastYieldStep, broadcastStep, h, hc]
    · by_cases hf : client.sinkFails = true
      · simp [broadcastYieldStep, broadcastStep, h, hc, hf]
      · by_cases hm : (n + 1) % 500 = 0
        · simp [broadcastYieldStep, broadcastStep, h, hc, hf, hm]
        · simp [broadcastYieldStep, broadcastStep, h, hc, hf, hm]

theorem broadcastYield_foldl_eq (e : String) :
    ∀ (l : List String) (n y : Nat) (s : SSEState),
      (l.foldl (broadcastYieldStep e) (n, y, s)).1 =
        (l.foldl (broadcastStep e) (n, s)).1 ∧
      (l.foldl (broadcastYieldStep e) (n, y, s)).2.2 =
        (l.foldl (broadcastStep e) (n, s)).2 := by
  intro l
  induction l with
  | nil => intro n y s; exact ⟨rfl, rfl⟩
  | cons a t ih =>
      intro n y s
      rw [List.foldl_cons, List.foldl_cons]
      obtain ⟨h1, h2⟩ := broadcastYieldStep_eq e n y s a
      rcases hy : broadcastYieldStep e (n, y, s) a with ⟨n₁, y₁, s₁⟩
      rcases hb : broadcastStep e (n, s) a with ⟨n₂, s₂⟩
      rw [hy, hb] at h1 h2
      simp only at h1 h2
      subst h1
      subst h2
      exact ih n₁ y₁ s₁

theorem writeSSE_closed {st : SSEState} {cid : String} (e : String) {c : SSEClient}
    (h : mapGet st.clients cid = some c) (hc : c.closed = true) :
    writeSSE st cid e = (false, st) := by
  simp [writeSSE, h, hc]

theorem writeSSE_snd_mapGet_ne (s : SSEState) (a e : String) {id : String}
    (hne : a ≠ id) :
    mapGet (writeSSE s a e).2.clients id = mapGet s.clients id := by
  rcases writeSSE_cases s a e with heq | ⟨client, h, hc, hrest⟩
  · simp [heq]
  · rcases hrest with ⟨hf, heq⟩ | ⟨hf, heq⟩
    · simp only [heq]
      exact mapGet_mapSet_ne _ _ hne
    · simp only [heq]
      exact mapGet_mapSet_ne _ _ hne

theorem broadcast_foldl_not_mem (e : String) :
    ∀ (l : List String) (n : Nat) (s : SSEState) (id : String), id ∉ l →
      mapGet ((l.foldl (broadcastStep e) (n, s)).2).clients id =
        mapGet s.clients id := by
  intro l
  induction l with
  | nil => intro n s id _; rfl
  | cons a t ih =>
      intro n s id hid
      have hne : a ≠ id := fun h => hid (h ▸ List.mem_cons_self a t)
      have hid' : id ∉ t := fun h => hid (List.mem_cons_of_mem a h)
      rw [List.foldl_cons, broadcastStep_eq_writeSSE]
      rw [ih _ _ id hid']
      exact writeSSE_snd_mapGet_ne s a e hne

theorem broadcast_foldl_closed_fixed (e : String) :
    ∀ (l : List String) (n : Nat) (s : SSEState) (id : String) (c : SSEClient),
      c.closed = true → mapGet s.clients id = some c →
      mapGet ((l.foldl (broadcastStep e) (n, s)).2).clients id = some c := by
  intro l
  induction l with
  | nil => intro n s id c _ hc; exact hc
  | cons a t ih =>
      intro n s id c hcl hc
      rw [List.foldl_cons, broadcastStep_eq_writeSSE]
      by_cases hne : a = id
      · subst hne
        rw [writeSSE_closed e hc hcl]
        exact ih _ _ _ _ hcl hc
      · apply ih
        · exact hcl
        · rw [writeSSE_snd_mapGet_ne s a e hne]
          exact hc

theorem broadcast_foldl_written (e : String) :
    ∀ (l : List String), l.Nodup →
      ∀ (n : Nat) (s : SSEState) (id : String) (c : SSEClient),
        mapGet s.clients id = some c →
        ∃ c', mapGet ((l.foldl (broadcastStep e) (n, s)).2).clients id = some c' ∧
          (c'.written = c.written ∨ c'.written = c.written ++ [e]) := by
  intro l
  induction l with
  | nil =>
      intro _ n s id c hc
      exact ⟨c, hc, Or.inl rfl⟩
  | cons a t ih =>
      intro hnd n s id c hc
      have hat : a ∉ t := (List.nodup_cons.mp hnd).1
      have hnd' : t.Nodup := (List.nodup_cons.mp hnd).2
      rw [List.foldl_cons, broadcastStep_eq_writeSSE]
      by_cases hne : a = id
      · subst hne
        rcases writeSSE_cases s a e with heq | ⟨client, h, hcl, hrest⟩
        · rw [heq]
          simp only
          rw [broadcast_foldl_not_mem e t _ _ a hat]
          exact ⟨c, hc, Or.inl rfl⟩
        · have hcc : client = c := Option.some.inj (h.symm.trans hc)
          subst hcc
          rcases hrest with ⟨hf, heq⟩ | ⟨hf, heq⟩
          · rw [heq]
            simp only
            rw [broadcast_foldl_not_mem e t _ _ a hat]
            exact ⟨closeOnThrow client, mapGet_mapSet_self _ _ _, Or.inl rfl⟩
          · rw [heq]
            simp only
            rw [broadcast_foldl_not_mem e t _ _ a hat]
            exact ⟨recordWrite client e, mapGet_mapSet_self _ _ _, Or.inr rfl⟩
      · apply ih hnd'
        rw [writeSSE_snd_mapGet_ne s a e hne]
        exact hc

end SSE

namespace SSE

theorem writeSSE_success (st : SSEState) (cid e : String) {c : SSEClient}
    (h : mapGet st.clients cid = some c) (hcl : c.closed = false)
    (hf : c.sinkFails = false) :
    writeSSE st cid e =
      (true, { st with clients := mapSet st.clients cid (recordWrite c e) }) := by
  unfold writeSSE recordWrite
  simp [h, hcl, hf]

theorem writeSSE_throw (st : SSEState) (cid e : String) {c : SSEClient}
    (h : mapGet st.clients cid = some c) (hcl : c.closed = false)
    (hf : c.sinkFails = true) :
    writeSSE st cid e =
      (false, { st with clients := mapSet st.clients cid (closeOnThrow c) }) := by
  unfold writeSSE closeOnThrow
  simp [h, hcl, hf]

/-- Claim C9: the synchronous broadcast of `sse.ts` and the yielding variant
return the same delivered count and leave the registry — hence every client's
closed flag and written byte sequence — in the same state: yielding is a
fairness knob only. -/
theorem C9_yield_variant_equivalent (st : SSEState) (roomName : String)
    (p : BroadcastPayload) :
    (broadcastYield st roomName p).1 = (broadcast st roomName p).1 ∧
    (broadcastYield st roomName p).2.2 = (broadcast st roomName p).2 ∧
    ∀ id, mapGet (broadcastYield st roomName p).2.2.clients id =
      mapGet (broadcast st roomName p).2.clients id := by
  have key : (broadcastYield st roomName p).1 = (broadcast st roomName p).1 ∧
      (broadcastYield st roomName p).2.2 = (broadcast st roomName p).2 := by
    unfold broadcastYield broadcast
    rcases h : mapGet st.rooms roomName with _ | members
    · exact ⟨rfl, rfl⟩
    · exact broadcastYield_foldl_eq _ members 0 0 st
  exact ⟨key.1, key.2, fun id => by rw [key.2]⟩

/-- Claim C3: in a single broadcast the payload is serialized once and every
member that receives anything receives the one identical frame, which is the
SSE frame `event: entity-event`, then `data: ` plus the single-line JSON
encoding of the payload, terminated by exactly one blank line. -/
theorem C3_serialize_once_payload_fidelity (st : SSEState) (roomName : String)
    (p : BroadcastPayload)
    (hrep : ∀ r ms, mapGet st.rooms r = some ms → ms.Nodup)
    (id : String) (c : SSEClient) (hc : mapGet st.clients id = some c) :
    (∃ c', mapGet (broadcast st roomName p).2.clients id = some c' ∧
      (c'.written = c.written ∨ c'.written = c.written ++ [entityEventFrame p])) ∧
    entityEventFrame p =
      "event: entity-event\n" ++ "data: " ++ stringify p.toJson ++ "\n" ++ "\n" ∧
    noNewline (stringify p.toJson) := by
  refine ⟨?_, ?_, stringify_noNewline p.toJson⟩
  · unfold broadcast
    rcases h : mapGet st.rooms roomName with _ | members
    · exact ⟨c, hc, Or.inl rfl⟩
    · exact broadcast_foldl_written _ members (hrep roomName members h) 0 st id c hc
  · show "event: entity-event\ndata: " ++ stringify p.toJson ++ "\n\n" = _
    have h1 : ("event: entity-event\n" ++ "data: " : String) =
        "event: entity-event\ndata: " := by decide
    have h2 : ("\n" ++ "\n" : String) = "\n\n" := by decide
    rw [h1, String.append_assoc ("event: entity-event\ndata: " ++ stringify p.toJson)
      "\n" "\n", h2]

/-- Claim C5: unregistering is idempotent — a second `removeClient` with the
same id is a no-op, and `removeClient` with an unknown id leaves the state
unchanged. -/
theorem C5_unregister_idempotent (st : SSEState) (id : String) (hrep : MapRep st) :
    removeClient id (removeClient id st) = removeClient id st ∧
    (mapGet st.clients id = none → removeClient id st = st) := by
  constructor
  · rcases h : mapGet st.clients id with _ | client
    · conv in removeClient id st => rw [removeClient, h]
    · have hgone : mapGet (removeClient id st).clients id = none := by
        rw [removeClient, h]
        simp only
        apply mapGet_mapDelete_self
        exact nodup_keys_mapSet _ hrep.1
      rw [removeClient, hgone]
  · intro h
    rw [removeClient, h]

end SSE

namespace SSE

theorem addClient_snd_none (f : Bool) (now : Nat) (roomName : String)
    (st : SSEState) (h : mapGet st.rooms roomName = none) :
    (addClient f now roomName st).2 =
      { rooms := mapSet st.rooms roomName [newClientId st],
        clients := mapSet st.clients (newClientId st) (newClient f now roomName st),
        clientIdCounter := st.clientIdCounter + 1 } := by
  unfold addClient newClient newClientId
  simp [h, setAdd]

theorem addClient_snd_some (f : Bool) (now : Nat) (roomName : String)
    (st : SSEState) (members : List String)
    (h : mapGet st.rooms roomName = some members) :
    (addClient f now roomName st).2 =
      { rooms := mapSet st.rooms roomName (setAdd members (newClientId st)),
        clients := mapSet st.clients (newClientId st) (newClient f now roomName st),
        clientIdCounter := st.clientIdCounter + 1 } := by
  unfold addClient newClient newClientId
  simp [h]

theorem removeClient_eq_some {st : SSEState} {id : String} {client : SSEClient}
    {r0 : String} {ms : List String}
    (h : mapGet st.clients id = some client) (hr : client.rooms = [r0])
    (hms : mapGet st.rooms r0 = some ms) :
    removeClient id st =
      { rooms := if (setDelete ms id).length = 0 then mapDelete st.rooms r0
                 else mapSet st.rooms r0 (setDelete ms id),
        clients := mapDelete (mapSet st.clients id (markClosed client)) id,
        clientIdCounter := st.clientIdCounter } := by
  unfold removeClient markClosed
  rw [h]
  simp only [hr, List.foldl_cons, List.foldl_nil, hms]

theorem setAdd_ne_nil (s : List String) (x : String) : setAdd s x ≠ [] := by
  unfold setAdd
  split
  · rename_i h
    exact List.ne_nil_of_mem h
  · simp

theorem setDelete_eq_nil_mem {s : List String} {x : String}
    (h : setDelete s x = []) : ∀ y ∈ s, y = x := by
  intro y hy
  by_contra hne
  have : y ∈ setDelete s x := mem_setDelete.mpr ⟨hy, hne⟩
  rw [h] at this
  exact absurd this (List.not_mem_nil y)

theorem clients_after_remove_ne {α : Type} {m : List (String × α)}
    {id id0 : String} (v : α) (hne : id ≠ id0) :
    mapGet (mapDelete (mapSet m id v) id) id0 = mapGet m id0 := by
  rw [mapGet_mapDelete_ne _ hne, mapGet_mapSet_ne _ _ hne]

end SSE

namespace SSE

theorem inv_initState : Inv initState := by
  refine ⟨⟨List.nodup_nil, List.nodup_nil, ?_⟩, ?_, ?_, ?_, ?_⟩ <;>
    simp [initState, mapGet]

theorem fresh_id_not_mem {st : SSEState}
    (hctr : ∀ id c, mapGet st.clients id = some c →
      ∃ j, j ≤ st.clientIdCounter ∧ id = "client_" ++ Nat.repr j) :
    mapGet st.clients (newClientId st) = none := by
  rcases h : mapGet st.clients (newClientId st) with _ | c
  · rfl
  · exfalso
    obtain ⟨j, hj, hid⟩ := hctr _ _ h
    have : st.clientIdCounter + 1 = j := clientId_injective hid
    omega

theorem inv_fanoutShape {st st' : SSEState} (hs : FanoutShape st st')
    (hinv : Inv st) : Inv st' := by
  obtain ⟨hrooms, hctr, hkeys, hcl⟩ := hs
  have hback : ∀ id c', mapGet st'.clients id = some c' →
      ∃ c, mapGet st.clients id = some c ∧ c'.rooms = c.rooms := by
    intro id c' h'
    have hmem : id ∈ st.clients.map Prod.fst := by
      rw [← hkeys]
      exact (mapGet_isSome_iff _ _).mp ⟨c', h'⟩
    obtain ⟨c, hc⟩ := (mapGet_isSome_iff _ _).mpr hmem
    obtain ⟨c'', hc'', hle⟩ := hcl id c hc
    have : c'' = c' := Option.some.inj (hc''.symm.trans h')
    subst this
    exact ⟨c, hc, hle.2.1⟩
  refine ⟨⟨?_, ?_, ?_⟩, ?_, ?_, ?_, ?_⟩
  · rw [hkeys]
    exact hinv.1.1
  · rw [hrooms]
    exact hinv.1.2.1
  · intro r ms hms
    rw [hrooms] at hms
    exact hinv.1.2.2 r ms hms
  · intro r ms hms
    rw [hrooms] at hms
    exact hinv.2.1 r ms hms
  · intro id c' h'
    obtain ⟨c, hc, _⟩ := hback id c' h'
    obtain ⟨j, hj, hid⟩ := hinv.2.2.1 id c hc
    exact ⟨j, by rw [hctr]; exact hj, hid⟩
  · intro id c' h'
    obtain ⟨c, hc, hrm⟩ := hback id c' h'
    obtain ⟨r, hr⟩ := hinv.2.2.2.1 id c hc
    exact ⟨r, by rw [hrm, hr]⟩
  · intro id r
    rw [hrooms]
    constructor
    · intro hl
      obtain ⟨c, hc, hrc⟩ := (hinv.2.2.2.2 id r).mp hl
      obtain ⟨c', hc', hle⟩ := hcl id c hc
      exact ⟨c', hc', by rw [hle.2.1]; exact hrc⟩
    · intro ⟨c', hc', hrc⟩
      obtain ⟨c, hc, hrm⟩ := hback id c' hc'
      exact (hinv.2.2.2.2 id r).mpr ⟨c, hc, by rw [← hrm]; exact hrc⟩

end SSE

namespace SSE

theorem addClient_snd (f : Bool) (now : Nat) (roomName : String) (st : SSEState) :
    (addClient f now roomName st).2 =
      { rooms := mapSet st.rooms roomName
          (setAdd ((mapGet st.rooms roomName).getD []) (newClientId st)),
        clients := mapSet st.clients (newClientId st) (newClient f now roomName st),
        clientIdCounter := st.clientIdCounter + 1 } := by
  rcases h : mapGet st.rooms roomName with _ | ms
  · rw [addClient_snd_none f now roomName st h]
    simp [h, setAdd]
  · rw [addClient_snd_some f now roomName st ms h]
    simp [h]

theorem inv_addClient (f : Bool) (now : Nat) (roomName : String) {st : SSEState}
    (hinv : Inv st) : Inv (addClient f now roomName st).2 := by
  have hfresh : mapGet st.clients (newClientId st) = none := fresh_id_not_mem hinv.2.2.1
  have hfreshroom : ∀ r ms, mapGet st.rooms r = some ms → newClientId st ∉ ms := by
    intro r ms hms hmem
    obtain ⟨c, hc, _⟩ := (hinv.2.2.2.2 (newClientId st) r).mp ⟨ms, hms, hmem⟩
    rw [hfresh] at hc
    cases hc
  rw [addClient_snd f now roomName st]
  have hMnodup : ((mapGet st.rooms roomName).getD []).Nodup := by
    rcases h : mapGet st.rooms roomName with _ | ms
    · simp
    · simp only [Option.getD_some]
      exact hinv.1.2.2 roomName ms h
  have hMold : ∀ id0 : String,
      (∃ ms, mapGet st.rooms roomName = some ms ∧ id0 ∈ ms) ↔
        id0 ∈ (mapGet st.rooms roomName).getD [] := by
    intro id0
    rcases h : mapGet st.rooms roomName with _ | ms
    · simp
    · simp
  refine ⟨⟨?_, ?_, ?_⟩, ?_, ?_, ?_, ?_⟩
  · exact nodup_keys_mapSet _ hinv.1.1
  · exact nodup_keys_mapSet _ hinv.1.2.1
  · intro r ms hms
    by_cases hr : roomName = r
    · subst hr
      rw [mapGet_mapSet_self] at hms
      obtain rfl := Option.some.inj hms
      exact nodup_setAdd _ hMnodup
    · rw [mapGet_mapSet_ne _ _ hr] at hms
      exact hinv.1.2.2 r ms hms
  · intro r ms hms
    by_cases hr : roomName = r
    · subst hr
      rw [mapGet_mapSet_self] at hms
      obtain rfl := Option.some.inj hms
      exact setAdd_ne_nil _ _
    · rw [mapGet_mapSet_ne _ _ hr] at hms
      exact hinv.2.1 r ms hms
  · intro id c hc
    by_cases hid : newClientId st = id
    · subst hid
      exact ⟨st.clientIdCounter + 1, Nat.le_refl _, rfl⟩
    · rw [mapGet_mapSet_ne _ _ hid] at hc
      obtain ⟨j, hj, hid'⟩ := hinv.2.2.1 id c hc
      refine ⟨j, ?_, hid'⟩
      show j ≤ st.clientIdCounter + 1
      omega
  · intro id c hc
    by_cases hid : newClientId st = id
    · subst hid
      rw [mapGet_mapSet_self] at hc
      obtain rfl := Option.some.inj hc
      exact ⟨roomName, rfl⟩
    · rw [mapGet_mapSet_ne _ _ hid] at hc
      exact hinv.2.2.2.1 id c hc
  · intro id r
    by_cases hid : newClientId st = id
    · subst hid
      by_cases hr : roomName = r
      · subst hr
        constructor
        · intro _
          exact ⟨newClient f now roomName st, mapGet_mapSet_self _ _ _,
            List.mem_singleton_self _⟩
        · intro _
          exact ⟨setAdd ((mapGet st.rooms roomName).getD []) (newClientId st),
            mapGet_mapSet_self _ _ _, mem_setAdd.mpr (Or.inr rfl)⟩
      · apply iff_of_false
        · rintro ⟨ms, hms, hmem⟩
          rw [mapGet_mapSet_ne _ _ hr] at hms
          exact hfreshroom r ms hms hmem
        · rintro ⟨c, hc, hrc⟩
          rw [mapGet_mapSet_self] at hc
          obtain rfl := Option.some.inj hc
          exact hr (List.mem_singleton.mp hrc).symm
    · by_cases hr : roomName = r
      · subst hr
        constructor
        · rintro ⟨ms, hms, hmem⟩
          rw [mapGet_mapSet_self] at hms
          obtain rfl := Option.some.inj hms
          have hidM : id ∈ (mapGet st.rooms roomName).getD [] := by
            rcases mem_setAdd.mp hmem with h | h
            · exact h
            · exact absurd h.symm hid
          obtain ⟨c, hc, hrc⟩ := (hinv.2.2.2.2 id roomName).mp ((hMold id).mpr hidM)
          exact ⟨c, by rw [mapGet_mapSet_ne _ _ hid]; exact hc, hrc⟩
        · rintro ⟨c, hc, hrc⟩
          rw [mapGet_mapSet_ne _ _ hid] at hc
          have hidM : id ∈ (mapGet st.rooms roomName).getD [] :=
            (hMold id).mp ((hinv.2.2.2.2 id roomName).mpr ⟨c, hc, hrc⟩)
          exact ⟨setAdd ((mapGet st.rooms roomName).getD []) (newClientId st),
            mapGet_mapSet_self _ _ _, mem_setAdd.mpr (Or.inl hidM)⟩
      · constructor
        · rintro ⟨ms, hms, hmem⟩
          rw [mapGet_mapSet_ne _ _ hr] at hms
          obtain ⟨c, hc, hrc⟩ := (hinv.2.2.2.2 id r).mp ⟨ms, hms, hmem⟩
          exact ⟨c, by rw [mapGet_mapSet_ne _ _ hid]; exact hc, hrc⟩
        · rintro ⟨c, hc, hrc⟩
          rw [mapGet_mapSet_ne _ _ hid] at hc
          obtain ⟨ms, hms, hmem⟩ := (hinv.2.2.2.2 id r).mpr ⟨c, hc, hrc⟩
          exact ⟨ms, by rw [mapGet_mapSet_ne _ _ hr]; exact hms, hmem⟩

end SSE

namespace SSE

theorem inv_removeClient (id : String) {st : SSEState} (hinv : Inv st) :
    Inv (removeClient id st) := by
  rcases h : mapGet st.clients id with _ | client
  · rw [removeClient, h]
    exact hinv
  · obtain ⟨r0, hr⟩ := hinv.2.2.2.1 id client h
    obtain ⟨ms, hms, hidms⟩ := (hinv.2.2.2.2 id r0).mpr
      ⟨client, h, by rw [hr]; exact List.mem_singleton_self r0⟩
    rw [removeClient_eq_some h hr hms]
    have hclientsNone :
        mapGet (mapDelete (mapSet st.clients id (markClosed client)) id) id = none :=
      mapGet_mapDelete_self id (nodup_keys_mapSet _ hinv.1.1)
    have hclientsNe : ∀ id0, id ≠ id0 →
        mapGet (mapDelete (mapSet st.clients id (markClosed client)) id) id0 =
          mapGet st.clients id0 :=
      fun id0 hne => clients_after_remove_ne _ hne
    have hclientsNodup :
        ((mapDelete (mapSet st.clients id (markClosed client)) id).map Prod.fst).Nodup :=
      nodup_keys_mapDelete _ (nodup_keys_mapSet _ hinv.1.1)
    by_cases hdel : (setDelete ms id).length = 0
    · rw [if_pos hdel]
      have hmsall : ∀ y ∈ ms, y = id :=
        setDelete_eq_nil_mem (List.length_eq_zero.mp hdel)
      refine ⟨⟨hclientsNodup, nodup_keys_mapDelete _ hinv.1.2.1, ?_⟩, ?_, ?_, ?_, ?_⟩
      · intro r ms0 hms0
        by_cases hr0 : r0 = r
        · subst hr0
          rw [mapGet_mapDelete_self _ hinv.1.2.1] at hms0
          cases hms0
        · rw [mapGet_mapDelete_ne _ hr0] at hms0
          exact hinv.1.2.2 r ms0 hms0
      · intro r ms0 hms0
        by_cases hr0 : r0 = r
        · subst hr0
          rw [mapGet_mapDelete_self _ hinv.1.2.1] at hms0
          cases hms0
        · rw [mapGet_mapDelete_ne _ hr0] at hms0
          exact hinv.2.1 r ms0 hms0
      · intro id0 c0 hc0
        by_cases hid0 : id = id0
        · subst hid0
          rw [hclientsNone] at hc0
          cases hc0
        · rw [hclientsNe id0 hid0] at hc0
          exact hinv.2.2.1 id0 c0 hc0
      · intro id0 c0 hc0
        by_cases hid0 : id = id0
        · subst hid0
          rw [hclientsNone] at hc0
          cases hc0
        · rw [hclientsNe id0 hid0] at hc0
          exact hinv.2.2.2.1 id0 c0 hc0
      · intro id0 r
        by_cases hid0 : id = id0
        · subst hid0
          apply iff_of_false
          · rintro ⟨ms0, hms0, hmem0⟩
            by_cases hr0 : r0 = r
            · subst hr0
              rw [mapGet_mapDelete_self _ hinv.1.2.1] at hms0
              cases hms0
            · rw [mapGet_mapDelete_ne _ hr0] at hms0
              obtain ⟨c0, hc0, hrc0⟩ := (hinv.2.2.2.2 id r).mp ⟨ms0, hms0, hmem0⟩
              obtain rfl := Option.some.inj (h.symm.trans hc0)
              rw [hr] at hrc0
              exact hr0 (List.mem_singleton.mp hrc0).symm
          · rintro ⟨c0, hc0, _⟩
            rw [hclientsNone] at hc0
            cases hc0
        · by_cases hr0 : r0 = r
          · subst hr0
            apply iff_of_false
            · rintro ⟨ms0, hms0, hmem0⟩
              rw [mapGet_mapDelete_self _ hinv.1.2.1] at hms0
              cases hms0
            · rintro ⟨c0, hc0, hrc0⟩
              rw [hclientsNe id0 hid0] at hc0
              obtain ⟨ms0, hms0, hmem0⟩ := (hinv.2.2.2.2 id0 r0).mpr ⟨c0, hc0, hrc0⟩
              obtain rfl := Option.some.inj (hms.symm.trans hms0)
              exact hid0 (hmsall id0 hmem0).symm
          · constructor
            · rintro ⟨ms0, hms0, hmem0⟩
              rw [mapGet_mapDelete_ne _ hr0] at hms0
              obtain ⟨c0, hc0, hrc0⟩ := (hinv.2.2.2.2 id0 r).mp ⟨ms0, hms0, hmem0⟩
              exact ⟨c0, by rw [hclientsNe id0 hid0]; exact hc0, hrc0⟩
            · rintro ⟨c0, hc0, hrc0⟩
              rw [hclientsNe id0 hid0] at hc0
              obtain ⟨ms0, hms0, hmem0⟩ := (hinv.2.2.2.2 id0 r).mpr ⟨c0, hc0, hrc0⟩
              exact ⟨ms0, by rw [mapGet_mapDelete_ne _ hr0]; exact hms0, hmem0⟩
    · rw [if_neg hdel]
      refine ⟨⟨hclientsNodup, nodup_keys_mapSet _ hinv.1.2.1, ?_⟩, ?_, ?_, ?_, ?_⟩
      · intro r ms0 hms0
        by_cases hr0 : r0 = r
        · subst hr0
          rw [mapGet_mapSet_self] at hms0
          obtain rfl := Option.some.inj hms0
          exact nodup_setDelete _ (hinv.1.2.2 r0 ms hms)
        · rw [mapGet_mapSet_ne _ _ hr0] at hms0
          exact hinv.1.2.2 r ms0 hms0
      · intro r ms0 hms0
        by_cases hr0 : r0 = r
        · subst hr0
          rw [mapGet_mapSet_self] at hms0
          obtain rfl := Option.some.inj hms0
          intro hnil
          exact hdel (by rw [hnil]; rfl)
        · rw [mapGet_mapSet_ne _ _ hr0] at hms0
          exact hinv.2.1 r ms0 hms0
      · intro id0 c0 hc0
        by_cases hid0 : id = id0
        · subst hid0
          rw [hclientsNone] at hc0
          cases hc0
        · rw [hclientsNe id0 hid0] at hc0
          exact hinv.2.2.1 id0 c0 hc0
      · intro id0 c0 hc0
        by_cases hid0 : id = id0
        · subst hid0
          rw [hclientsNone] at hc0
          cases hc0
        · rw [hclientsNe id0 hid0] at hc0
          exact hinv.2.2.2.1 id0 c0 hc0
      · intro id0 r
        by_cases hid0 : id = id0
        · subst hid0
          apply iff_of_false
          · rintro ⟨ms0, hms0, hmem0⟩
            by_cases hr0 : r0 = r
            · subst hr0
              rw [mapGet_mapSet_self] at hms0
              obtain rfl := Option.some.inj hms0
              exact absurd rfl (mem_setDelete.mp hmem0).2
            · rw [mapGet_mapSet_ne _ _ hr0] at hms0
              obtain ⟨c0, hc0, hrc0⟩ := (hinv.2.2.2.2 id r).mp ⟨ms0, hms0, hmem0⟩
              obtain rfl := Option.some.inj (h.symm.trans hc0)
              rw [hr] at hrc0
              exact hr0 (List.mem_singleton.mp hrc0).symm
          · rintro ⟨c0, hc0, _⟩
            rw [hclientsNone] at hc0
            cases hc0
        · by_cases hr0 : r0 = r
          · subst hr0
            constructor
            · rintro ⟨ms0, hms0, hmem0⟩
              rw [mapGet_mapSet_self] at hms0
              obtain rfl := Option.some.inj hms0
              obtain ⟨c0, hc0, hrc0⟩ := (hinv.2.2.2.2 id0 r0).mp
                ⟨ms, hms, (mem_setDelete.mp hmem0).1⟩
              exact ⟨c0, by rw [hclientsNe id0 hid0]; exact hc0, hrc0⟩
            · rintro ⟨c0, hc0, hrc0⟩
              rw [hclientsNe id0 hid0] at hc0
              obtain ⟨ms0, hms0, hmem0⟩ := (hinv.2.2.2.2 id0 r0).mpr ⟨c0, hc0, hrc0⟩
              obtain rfl := Option.some.inj (hms.symm.trans hms0)
              exact ⟨setDelete ms id, mapGet_mapSet_self _ _ _,
                mem_setDelete.mpr ⟨hmem0, fun he => hid0 he.symm⟩⟩
          · constructor
            · rintro ⟨ms0, hms0, hmem0⟩
              rw [mapGet_mapSet_ne _ _ hr0] at hms0
              obtain ⟨c0, hc0, hrc0⟩ := (hinv.2.2.2.2 id0 r).mp ⟨ms0, hms0, hmem0⟩
              exact ⟨c0, by rw [hclientsNe id0 hid0]; exact hc0, hrc0⟩
            · rintro ⟨c0, hc0, hrc0⟩
              rw [hclientsNe id0 hid0] at hc0
              obtain ⟨ms0, hms0, hmem0⟩ := (hinv.2.2.2.2 id0 r).mpr ⟨c0, hc0, hrc0⟩
              exact ⟨ms0, by rw [mapGet_mapSet_ne _ _ hr0]; exact hms0, hmem0⟩

end SSE

namespace SSE

theorem inv_applyOp {st : SSEState} (hinv : Inv st) : ∀ op : Op, Inv (applyOp st op)
  | .add f now r => inv_addClient f now r hinv
  | .remove cid => inv_removeClient cid hinv
  | .bcast r p => inv_fanoutShape (broadcast_shape st r p) hinv
  | .send cid ev d => inv_fanoutShape (sendEvent_shape st cid ev d) hinv
  | .closeAll => inv_initState

theorem inv_foldl :
    ∀ (ops : List Op) (st : SSEState), Inv st → Inv (ops.foldl applyOp st) := by
  intro ops
  induction ops with
  | nil => intro st h; exact h
  | cons op t ih => intro st h; exact ih _ (inv_applyOp h op)

theorem inv_runOps (ops : List Op) : Inv (runOps ops) :=
  inv_foldl ops initState inv_initState

theorem length_mapSet_of_not_mem {α : Type} {m : List (String × α)} {k : String}
    (v : α) (h : k ∉ m.map Prod.fst) : (mapSet m k v).length = m.length + 1 := by
  have := congrArg List.length (keys_mapSet_of_not_mem v h)
  simpa using this

/-- Claim C2: in every registry state reachable from the empty registry by
addClient, removeClient, broadcast, sendEvent and closeAllClients calls, a
client id appears in the member set of room R iff the client stored under
that id has R in its rooms set. -/
theorem C2_membership_consistency (ops : List Op) (id room : String) :
    (∃ ms, mapGet (runOps ops).rooms room = some ms ∧ id ∈ ms) ↔
    (∃ c, mapGet (runOps ops).clients id = some c ∧ room ∈ c.rooms) :=
  (inv_runOps ops).2.2.2.2 id room

/-- Claim C4: no reachable registry state contains a room with an empty
member set, and removing the last member of room R deletes the room entry so
that `getRoomClientCount` returns 0. -/
theorem C4_empty_room_cleanup (ops : List Op) (R cid : String) :
    (∀ ms, mapGet (runOps ops).rooms R = some ms → ms ≠ []) ∧
    (mapGet (runOps ops).rooms R = some [cid] →
      mapGet (removeClient cid (runOps ops)).rooms R = none ∧
      getRoomClientCount (removeClient cid (runOps ops)) R = 0) := by
  have hinv := inv_runOps ops
  constructor
  · intro ms hms
    exact hinv.2.1 R ms hms
  · intro hR
    obtain ⟨c, hc, hrc⟩ := (hinv.2.2.2.2 cid R).mp ⟨[cid], hR, List.mem_singleton_self cid⟩
    obtain ⟨r0, hr0⟩ := hinv.2.2.2.1 cid c hc
    have hRr0 : r0 = R := by
      rw [hr0] at hrc
      exact (List.mem_singleton.mp hrc).symm
    subst hRr0
    have hdel : (setDelete [cid] cid).length = 0 := by simp [setDelete]
    rw [removeClient_eq_some hc hr0 hR, if_pos hdel]
    have hnone := mapGet_mapDelete_self r0 hinv.1.2.1
    refine ⟨hnone, ?_⟩
    simp [getRoomClientCount, hnone]

/-- Witness for C4 at a concrete one-client room. -/
theorem C4_witness :
    mapGet (removeClient "client_1" (runOps [Op.add false 0 "s1:b1"])).rooms
      "s1:b1" = none ∧
    getRoomClientCount (removeClient "client_1" (runOps [Op.add false 0 "s1:b1"]))
      "s1:b1" = 0 :=
  (C4_empty_room_cleanup [Op.add false 0 "s1:b1"] "s1:b1" "client_1").2 (by decide)

/-- Claim C6: registering a client into a not-yet-existing room makes that
room's member count 1 and increases the client count by exactly 1. -/
theorem C6_registration_round_trip (ops : List Op) (f : Bool) (now : Nat)
    (R : String) (hR : mapGet (runOps ops).rooms R = none) :
    getRoomClientCount (addClient f now R (runOps ops)).2 R = 1 ∧
    getClientCount (addClient f now R (runOps ops)).2 =
      getClientCount (runOps ops) + 1 := by
  have hinv := inv_runOps ops
  rw [addClient_snd_none f now R (runOps ops) hR]
  have hfresh : mapGet (runOps ops).clients (newClientId (runOps ops)) = none :=
    fresh_id_not_mem hinv.2.2.1
  have hnot : newClientId (runOps ops) ∉ (runOps ops).clients.map Prod.fst :=
    (mapGet_eq_none_iff _ _).mp hfresh
  constructor
  · have hself := mapGet_mapSet_self (runOps ops).rooms R [newClientId (runOps ops)]
    simp [getRoomClientCount, hself]
  · show (mapSet (runOps ops).clients (newClientId (runOps ops))
      (newClient f now R (runOps ops))).length = (runOps ops).clients.length + 1
    exact length_mapSet_of_not_mem _ hnot

/-- Witness for C6 from the empty registry. -/
theorem C6_witness :
    getRoomClientCount (addClient false 0 "s1:b1" (runOps [])).2 "s1:b1" = 1 ∧
    getClientCount (addClient false 0 "s1:b1" (runOps [])).2 =
      getClientCount (runOps []) + 1 :=
  C6_registration_round_trip [] false 0 "s1:b1" (by decide)

end SSE

namespace SSE

/-- Claim C8: once a client's closed flag is true, `sendEvent` returns false
without touching the state, `broadcast` leaves the client's record — written
log and attempt count included — untouched, and no interface call ever resets
the flag to false. -/
theorem C8_no_write_after_close (ops : List Op) (id : String) (c : SSEClient)
    (hc : mapGet (runOps ops).clients id = some c) (hcl : c.closed = true)
    (ev : String) (d : Json) (roomName : String) (p : BroadcastPayload) :
    sendEvent (runOps ops) id ev d = (false, runOps ops) ∧
    mapGet (broadcast (runOps ops) roomName p).2.clients id = some c ∧
    ∀ (op : Op) (c₁ : SSEClient),
      mapGet (applyOp (runOps ops) op).clients id = some c₁ → c₁.closed = true := by
  have hinv := inv_runOps ops
  refine ⟨writeSSE_closed _ hc hcl, ?_, ?_⟩
  · unfold broadcast
    rcases h : mapGet (runOps ops).rooms roomName with _ | members
    · exact hc
    · exact broadcast_foldl_closed_fixed _ members 0 _ id c hcl hc
  · intro op c₁ h₁
    cases op with
    | add f now r =>
        rw [show applyOp (runOps ops) (Op.add f now r) =
          (addClient f now r (runOps ops)).2 from rfl, addClient_snd f now r] at h₁
        by_cases hid : newClientId (runOps ops) = id
        · exfalso
          rw [← hid] at hc
          rw [fresh_id_not_mem hinv.2.2.1] at hc
          cases hc
        · rw [mapGet_mapSet_ne _ _ hid] at h₁
          obtain rfl := Option.some.inj (hc.symm.trans h₁)
          exact hcl
    | remove rid =>
        rw [show applyOp (runOps ops) (Op.remove rid) =
          removeClient rid (runOps ops) from rfl] at h₁
        rcases hrid : mapGet (runOps ops).clients rid with _ | client2
        · rw [removeClient, hrid] at h₁
          obtain rfl := Option.some.inj (hc.symm.trans h₁)
          exact hcl
        · obtain ⟨r0, hr0⟩ := hinv.2.2.2.1 rid client2 hrid
          obtain ⟨ms, hms, _⟩ := (hinv.2.2.2.2 rid r0).mpr
            ⟨client2, hrid, by rw [hr0]; exact List.mem_singleton_self r0⟩
          rw [removeClient_eq_some hrid hr0 hms] at h₁
          by_cases hid : rid = id
          · subst hid
            rw [mapGet_mapDelete_self rid (nodup_keys_mapSet _ hinv.1.1)] at h₁
            cases h₁
          · rw [clients_after_remove_ne _ hid] at h₁
            obtain rfl := Option.some.inj (hc.symm.trans h₁)
            exact hcl
    | bcast r p2 =>
        have h2 : mapGet (broadcast (runOps ops) r p2).2.clients id = some c := by
          unfold broadcast
          rcases h : mapGet (runOps ops).rooms r with _ | members
          · exact hc
          · exact broadcast_foldl_closed_fixed _ members 0 _ id c hcl hc
        rw [show applyOp (runOps ops) (Op.bcast r p2) =
          (broadcast (runOps ops) r p2).2 from rfl] at h₁
        obtain rfl := Option.some.inj (h2.symm.trans h₁)
        exact hcl
    | send rid ev2 d2 =>
        rw [show applyOp (runOps ops) (Op.send rid ev2 d2) =
          (writeSSE (runOps ops) rid (sendEventFrame ev2 d2)).2 from rfl] at h₁
        by_cases hid : rid = id
        · subst hid
          rw [writeSSE_closed _ hc hcl] at h₁
          obtain rfl := Option.some.inj (hc.symm.trans h₁)
          exact hcl
        · rw [writeSSE_snd_mapGet_ne _ rid _ hid] at h₁
          obtain rfl := Option.some.inj (hc.symm.trans h₁)
          exact hcl
    | closeAll =>
        rw [show applyOp (runOps ops) Op.closeAll = initState from rfl] at h₁
        simp [initState, mapGet] at h₁

end SSE

namespace SSE

/-- Claim C1: in a room with exactly the three registered clients A, B, C —
registered in that order, B's sink throwing on every write, A's and C's sinks
succeeding — broadcast returns 2, afterwards B is marked closed while A and C
remain registered with closed still false, and the write attempt to C (after
B's failure) happened: A's and C's written logs grew by the frame. -/
theorem C1_failure_isolation (st : SSEState) (R : String) (p : BroadcastPayload)
    (a b c : String) (ca cb cc : SSEClient)
    (hab : a ≠ b) (hac : a ≠ c) (hbc : b ≠ c)
    (hR : mapGet st.rooms R = some [a, b, c])
    (ha : mapGet st.clients a = some ca) (hb : mapGet st.clients b = some cb)
    (hcg : mapGet st.clients c = some cc)
    (haC : ca.closed = false) (haF : ca.sinkFails = false)
    (hbC : cb.closed = false) (hbF : cb.sinkFails = true)
    (hcC : cc.closed = false) (hcF : cc.sinkFails = false) :
    (broadcast st R p).1 = 2 ∧
    mapGet (broadcast st R p).2.clients b = some (closeOnThrow cb) ∧
    (closeOnThrow cb).closed = true ∧
    mapGet (broadcast st R p).2.clients a =
      some (recordWrite ca (entityEventFrame p)) ∧
    (recordWrite ca (entityEventFrame p)).closed = false ∧
    mapGet (broadcast st R p).2.clients c =
      some (recordWrite cc (entityEventFrame p)) ∧
    (recordWrite cc (entityEventFrame p)).closed = false ∧
    (broadcast st R p).2.rooms = st.rooms := by
  set e := entityEventFrame p with he
  have hA := writeSSE_success st a e ha haC haF
  set stA : SSEState :=
    { st with clients := mapSet st.clients a (recordWrite ca e) } with hstA
  have hAb : mapGet stA.clients b = some cb := by
    show mapGet (mapSet st.clients a (recordWrite ca e)) b = some cb
    rw [mapGet_mapSet_ne _ _ hab]
    exact hb
  have hAc : mapGet stA.clients c = some cc := by
    show mapGet (mapSet st.clients a (recordWrite ca e)) c = some cc
    rw [mapGet_mapSet_ne _ _ hac]
    exact hcg
  have hB := writeSSE_throw stA b e hAb hbC hbF
  set stB : SSEState :=
    { stA with clients := mapSet stA.clients b (closeOnThrow cb) } with hstB
  have hBc : mapGet stB.clients c = some cc := by
    show mapGet (mapSet stA.clients b (closeOnThrow cb)) c = some cc
    rw [mapGet_mapSet_ne _ _ hbc]
    exact hAc
  have hC := writeSSE_success stB c e hBc hcC hcF
  set stC : SSEState :=
    { stB with clients := mapSet stB.clients c (recordWrite cc e) } with hstC
  have s1 : broadcastStep e (0, st) a = (1, stA) := by
    rw [broadcastStep_eq_writeSSE, hA]
    simp
  have s2 : broadcastStep e (1, stA) b = (1, stB) := by
    rw [broadcastStep_eq_writeSSE, hB]
    simp
  have s3 : broadcastStep e (1, stB) c = (2, stC) := by
    rw [broadcastStep_eq_writeSSE, hC]
    simp
  have hbr : broadcast st R p = (2, stC) := by
    unfold broadcast
    rw [hR]
    simp only [List.foldl_cons, List.foldl_nil, ← he]
    rw [s1, s2, s3]
  rw [hbr]
  refine ⟨rfl, ?_, rfl, ?_, haC, ?_, hcC, rfl⟩
  · show mapGet (mapSet stB.clients c (recordWrite cc e)) b = some (closeOnThrow cb)
    rw [mapGet_mapSet_ne _ _ (Ne.symm hbc)]
    show mapGet (mapSet stA.clients b (closeOnThrow cb)) b = some (closeOnThrow cb)
    exact mapGet_mapSet_self _ _ _
  · show mapGet (mapSet stB.clients c (recordWrite cc e)) a =
      some (recordWrite ca e)
    rw [mapGet_mapSet_ne _ _ (Ne.symm hac)]
    show mapGet (mapSet stA.clients b (closeOnThrow cb)) a = some (recordWrite ca e)
    rw [mapGet_mapSet_ne _ _ (Ne.symm hab)]
    exact mapGet_mapSet_self _ _ _
  · show mapGet (mapSet stB.clients c (recordWrite cc e)) c =
      some (recordWrite cc e)
    exact mapGet_mapSet_self _ _ _

end SSE

namespace SSE

/-- Witness for C1 on the concrete three-client room. -/
theorem C1_witness :
    (broadcast stC1 "r" samplePayload).1 = 2 ∧
    mapGet (broadcast stC1 "r" samplePayload).2.clients "client_2" =
      some (closeOnThrow clientB) ∧
    (closeOnThrow clientB).closed = true ∧
    mapGet (broadcast stC1 "r" samplePayload).2.clients "client_1" =
      some (recordWrite clientA (entityEventFrame samplePayload)) ∧
    (recordWrite clientA (entityEventFrame samplePayload)).closed = false ∧
    mapGet (broadcast stC1 "r" samplePayload).2.clients "client_3" =
      some (recordWrite clientC (entityEventFrame samplePayload)) ∧
    (recordWrite clientC (entityEventFrame samplePayload)).closed = false ∧
    (broadcast stC1 "r" samplePayload).2.rooms = stC1.rooms :=
  C1_failure_isolation stC1 "r" samplePayload "client_1" "client_2" "client_3"
    clientA clientB clientC (by decide) (by decide) (by decide) (by decide)
    (by decide) (by decide) (by decide) (by decide) (by decide) (by decide)
    (by decide) (by decide) (by decide)

/-- Witness for C3 on a concrete one-client room. -/
theorem C3_witness :
    (∃ c', mapGet (broadcast (runOps [Op.add false 0 "s1:b1"]) "s1:b1"
        samplePayload).2.clients "client_1" = some c' ∧
      (c'.written = sampleLiveClient.written ∨
        c'.written = sampleLiveClient.written ++ [entityEventFrame samplePayload])) ∧
    entityEventFrame samplePayload =
      "event: entity-event\n" ++ "data: " ++ stringify samplePayload.toJson ++
        "\n" ++ "\n" ∧
    noNewline (stringify samplePayload.toJson) :=
  C3_serialize_once_payload_fidelity (runOps [Op.add false 0 "s1:b1"]) "s1:b1"
    samplePayload (inv_runOps [Op.add false 0 "s1:b1"]).1.2.2 "client_1"
    sampleLiveClient (by decide)

/-- Witness for C5 on a concrete one-client registry. -/
theorem C5_witness :
    removeClient "client_1" (removeClient "client_1"
      (runOps [Op.add false 0 "s1:b1"])) =
      removeClient "client_1" (runOps [Op.add false 0 "s1:b1"]) ∧
    (mapGet (runOps [Op.add false 0 "s1:b1"]).clients "client_1" = none →
      removeClient "client_1" (runOps [Op.add false 0 "s1:b1"]) =
        runOps [Op.add false 0 "s1:b1"]) :=
  C5_unregister_idempotent (runOps [Op.add false 0 "s1:b1"]) "client_1"
    (inv_runOps [Op.add false 0 "s1:b1"]).1

/-- Witness for C8 on the concrete closed client. -/
theorem C8_witness :
    sendEvent (runOps opsC8) "client_1" "connected" Json.null =
      (false, runOps opsC8) ∧
    mapGet (broadcast (runOps opsC8) "r" samplePayload).2.clients "client_1" =
      some sampleClosedClient ∧
    ∀ (op : Op) (c₁ : SSEClient),
      mapGet (applyOp (runOps opsC8) op).clients "client_1" = some c₁ →
        c₁.closed = true :=
  C8_no_write_after_close opsC8 "client_1" sampleClosedClient (by decide)
    (by decide) "connected" Json.null "r" samplePayload

end SSE
